import Mathlib

/-!
Verification of the tree-correlation and safe-extraction engine of
React-Context-MCP against its natural-language specification.

The development shallowly embeds the relevant source functions:

* the `safeSerialize` helper of the tool file (`src/unnamed/part_001`,
  lines 424-465) over an explicit heap of JavaScript values;
* the `hookBootstrap` script of `src/ReactSession.ts` (lines 55-92) as an
  operational semantics on an optional hook state;
* `takeSnapshot` / `processNode` of `src/ReactSession.ts` (lines 282-369);
* `getComponentMap` / `buildAxMap` / `walkFiber` of `src/ReactSession.ts`
  (lines 371-605) over a first-child/next-sibling fiber tree;
* the fiber ancestor walk of `getReactComponentFromSnapshot`
  (`src/unnamed/part_001`, lines 736-773).
-/

namespace ReactMCP

/-! ### JavaScript value model for the safe serializer

A JavaScript value is either a primitive, a function, or a reference into a
heap of objects.  The heap is needed because the serializer's inputs may be
cyclic (`a.self = a`), which an inductive value type cannot represent. -/

/-- JavaScript runtime value: primitives and functions are immediate, objects
are references into a heap. -/
inductive JVal where
  | vundefined
  | vnull
  | vbool (b : Bool)
  | vnum (n : Int)
  | vstr (s : String)
  | vfunc (name : String)
  | vref (r : Nat)
deriving Repr, DecidableEq

/-- Heap object: an array, or a plain object with an `instanceof Node` flag
(the one property of a DOM node the serializer tests) and ordered fields
(modelling `Object.entries` insertion order). -/
inductive HObj where
  | harr (items : List JVal)
  | hobj (isDomNode : Bool) (fields : List (String × JVal))
deriving Repr

/-- Serializer output value.  `sfunc` is a function value returned unchanged
by the serializer (JavaScript functions are not objects, so the early
`typeof obj !== 'object'` return passes them through). -/
inductive SVal where
  | sundefined
  | snull
  | sbool (b : Bool)
  | snum (n : Int)
  | sstr (s : String)
  | sfunc (name : String)
  | sarr (items : List SVal)
  | sobj (fields : List (String × SVal))
deriving Repr

/-- JavaScript truthiness of a value (`undefined`, `null`, `false`, `0` and
the empty string are falsy; objects and functions are truthy). -/
def jsTruthy : JVal → Bool
  | .vundefined => false
  | .vnull => false
  | .vbool b => b
  | .vnum n => n != 0
  | .vstr s => s != ""
  | .vfunc _ => true
  | .vref _ => true

/-- Property access on an ordered field list; absent keys read as
`undefined`, as in JavaScript. -/
def jsGetField (fields : List (String × JVal)) (key : String) : JVal :=
  match fields.find? (fun kv => kv.1 == key) with
  | some kv => kv.2
  | none => .vundefined

/-!
Embedding of `safeSerialize` (`src/unnamed/part_001`, lines 424-465):

```js
const safeSerialize = (obj, maxDepth = 3, seen = new WeakSet()) => {
  if (obj === null || obj === undefined) return obj;
  if (typeof obj !== 'object') return obj;
  if (seen.has(obj)) return '[Circular]';
  seen.add(obj);
  if (maxDepth <= 0) return '[Max Depth]';
  if (Array.isArray(obj)) {
    return obj.slice(0, 100).map(item => safeSerialize(item, maxDepth - 1, seen));
  }
  if (obj.$$typeof) return '[React Element]';
  if (obj instanceof Node) return '[DOM Node]';
  if (typeof obj === 'function') return `[Function: ...]`;
  const result = {};
  const entries = Object.entries(obj).slice(0, 50);
  for (const [key, value] of entries) {
    if (key.startsWith('__react')) continue;
    result[key] = safeSerialize(value, maxDepth - 1, seen);
  }
  return result;
};
```

The `seen` WeakSet is mutated in place and shared by all recursive calls of
one serialization, so it is threaded through the embedding as explicit
state (a list of heap references; only membership matters).  The array and
property limits are parameters (`arrLim`, `entLim`) because the repository
instantiates the same routine with 100/50 (the tool file) and 10/20 (the
inline copy in `getComponentMap`).  `maxDepth` is a natural number, so the
source's `maxDepth <= 0` test is the `0` case of the depth match, and the
recursive calls at `maxDepth - 1` are the calls at the predecessor.  Note
that the `typeof obj === 'function'` branch of the source is unreachable:
functions were already returned by the `typeof obj !== 'object'` line,
which the embedding makes visible in the type of `HObj` (heap objects are
arrays or plain objects, never functions). -/

/-- Left-to-right serialization of the retained array items by the
depth-decremented serializer `f`, threading the `seen` set (JavaScript
`Array.prototype.map` evaluates in order against the shared WeakSet). -/
def serSeq (f : List Nat → JVal → SVal × List Nat) :
    List Nat → List JVal → List SVal × List Nat
  | seen, [] => ([], seen)
  | seen, v :: rest =>
    let o1 := f seen v
    let o2 := serSeq f o1.2 rest
    (o1.1 :: o2.1, o2.2)

/-- Left-to-right serialization of the retained object entries by the
depth-decremented serializer `f`; keys with the reserved `__react` prefix
are skipped before their value is serialized (the source's `continue`). -/
def serSeqFields (f : List Nat → JVal → SVal × List Nat) :
    List Nat → List (String × JVal) → List (String × SVal) × List Nat
  | seen, [] => ([], seen)
  | seen, (key, v) :: rest =>
    if key.startsWith "__react" then
      serSeqFields f seen rest
    else
      let o1 := f seen v
      let o2 := serSeqFields f o1.2 rest
      ((key, o1.1) :: o2.1, o2.2)

/-- One call of `safeSerialize`: returns the serialized value together with
the updated `seen` set. -/
def serVal (heap : Nat → HObj) (arrLim entLim : Nat) :
    Nat → List Nat → JVal → SVal × List Nat
  | _, seen, .vundefined => (.sundefined, seen)
  | _, seen, .vnull => (.snull, seen)
  | _, seen, .vbool b => (.sbool b, seen)
  | _, seen, .vnum n => (.snum n, seen)
  | _, seen, .vstr s => (.sstr s, seen)
  | _, seen, .vfunc name => (.sfunc name, seen)
  | maxDepth, seen, .vref r =>
    if seen.contains r then (.sstr "[Circular]", seen)
    else
      let seen1 := seen ++ [r]
      match maxDepth with
      | 0 => (.sstr "[Max Depth]", seen1)
      | d + 1 =>
        match heap r with
        | .harr items =>
          let out := serSeq (serVal heap arrLim entLim d) seen1 (items.take arrLim)
          (.sarr out.1, out.2)
        | .hobj isDomNode fields =>
          if jsTruthy (jsGetField fields "$$typeof") then (.sstr "[React Element]", seen1)
          else if isDomNode then (.sstr "[DOM Node]", seen1)
          else
            let out := serSeqFields (serVal heap arrLim entLim d) seen1 (fields.take entLim)
            (.sobj out.1, out.2)

/-- The serializer as instantiated in the tool file (`maxArrayItems = 100`,
`maxProperties = 50`). -/
def safeSerialize (heap : Nat → HObj) (v : JVal) (maxDepth : Nat)
    (seen : List Nat := []) : SVal × List Nat :=
  serVal heap 100 50 maxDepth seen v

/-- The serializer as inlined in `getComponentMap` (`slice(0, 10)` items,
`slice(0, 20)` entries). -/
def safeSerializeCM (heap : Nat → HObj) (v : JVal) (maxDepth : Nat)
    (seen : List Nat := []) : SVal × List Nat :=
  serVal heap 10 20 maxDepth seen v

/-- Heap holding the single self-referential object of the specification's
cyclic input `a.self = a`. -/
def heapSelf : Nat → HObj := fun _ => .hobj false [("self", .vref 0)]

/-- Heap with a diamond: object 0 references object 1 twice; no cycle. -/
def heapDiamond : Nat → HObj := fun r =>
  if r = 0 then .hobj false [("x", .vref 1), ("y", .vref 1)] else .hobj false []

/-- Empty heap for values that dereference nothing. -/
def heapEmpty : Nat → HObj := fun _ => .hobj false []

/-! ### Decimal rendering

The snapshot UIDs are the interpolated strings `${snapshotId}_${counter}`,
which the embedding renders with `Nat.repr`.  Distinctness of UIDs therefore
needs injectivity of `Nat.repr`, proved here via a fuel-free recursion
`decDigits` equal to core's fueled `Nat.toDigitsCore`. -/

/-- Decimal digit list of a natural number (most significant first),
a fuel-free counterpart of `Nat.toDigits 10`. -/
def decDigits (n : Nat) : List Char :=
  if _h : n < 10 then [Nat.digitChar n]
  else decDigits (n / 10) ++ [Nat.digitChar (n % 10)]
decreasing_by exact Nat.div_lt_self (by omega) (by omega)

theorem decDigits_lt {k : Nat} (hk : k < 10) : decDigits k = [Nat.digitChar k] := by
  rw [decDigits, dif_pos hk]

theorem decDigits_ge {k : Nat} (hk : ¬ k < 10) :
    decDigits k = decDigits (k / 10) ++ [Nat.digitChar (k % 10)] := by
  rw [decDigits, dif_neg hk]

theorem decDigits_ne_nil (n : Nat) : decDigits n ≠ [] := by
  by_cases h : n < 10
  · simp [decDigits_lt h]
  · simp [decDigits_ge h]

theorem toDigitsCore_eq_decDigits :
    ∀ fuel n ds, n < fuel → Nat.toDigitsCore 10 fuel n ds = decDigits n ++ ds := by
  intro fuel
  induction fuel with
  | zero => omega
  | succ f ih =>
    intro n ds _hn
    by_cases h10 : n / 10 = 0
    · have hlt : n < 10 := by omega
      have hmod : n % 10 = n := by omega
      simp [Nat.toDigitsCore, h10, decDigits_lt hlt, hmod]
    · have hge : ¬ n < 10 := by omega
      have hstep : Nat.toDigitsCore 10 (f + 1) n ds
          = Nat.toDigitsCore 10 f (n / 10) (Nat.digitChar (n % 10) :: ds) := by
        simp [Nat.toDigitsCore, h10]
      rw [hstep, ih (n / 10) _ (by omega), decDigits_ge hge, List.append_assoc]
      rfl

theorem toDigits_eq_decDigits (n : Nat) : Nat.toDigits 10 n = decDigits n := by
  have h := toDigitsCore_eq_decDigits (n + 1) n [] (Nat.lt_succ_self n)
  simpa [Nat.toDigits] using h

theorem digitChar_fin_inj :
    ∀ a b : Fin 10, Nat.digitChar a.val = Nat.digitChar b.val → a = b := by decide

theorem digitChar_inj {a b : Nat} (ha : a < 10) (hb : b < 10)
    (h : Nat.digitChar a = Nat.digitChar b) : a = b := by
  have h2 := digitChar_fin_inj ⟨a, ha⟩ ⟨b, hb⟩ h
  exact congrArg Fin.val h2

theorem decDigits_inj : ∀ n m, decDigits n = decDigits m → n = m := by
  intro n
  induction n using Nat.strong_induction_on with
  | _ n ih =>
    intro m h
    by_cases hn : n < 10 <;> by_cases hm : m < 10
    · rw [decDigits_lt hn, decDigits_lt hm] at h
      exact digitChar_inj hn hm (List.singleton_injective h)
    · rw [decDigits_lt hn, decDigits_ge hm] at h
      cases hA : decDigits (m / 10) with
      | nil => exact absurd hA (decDigits_ne_nil _)
      | cons y ys => rw [hA] at h; simp at h
    · rw [decDigits_ge hn, decDigits_lt hm] at h
      cases hA : decDigits (n / 10) with
      | nil => exact absurd hA (decDigits_ne_nil _)
      | cons y ys => rw [hA] at h; simp at h
    · rw [decDigits_ge hn, decDigits_ge hm] at h
      have hrev := congrArg List.reverse h
      simp at hrev
      have hdig : n % 10 = m % 10 :=
        digitChar_inj (Nat.mod_lt _ (by omega)) (Nat.mod_lt _ (by omega)) hrev.1
      have hdiv : n / 10 = m / 10 :=
        ih (n / 10) (Nat.div_lt_self (by omega) (by omega)) (m / 10) hrev.2
      omega

theorem natRepr_inj {n m : Nat} (h : Nat.repr n = Nat.repr m) : n = m := by
  have hdata : Nat.toDigits 10 n = Nat.toDigits 10 m := by
    have h2 := congrArg String.data h
    simpa [Nat.repr, List.asString] using h2
  rw [toDigits_eq_decDigits, toDigits_eq_decDigits] at hdata
  exact decDigits_inj n m hdata

/-- UID assembled by `processNode`: the interpolation
`${snapshotId}_${uidCounter}`. -/
def uidOf (snapshotId : String) (counter : Nat) : String :=
  snapshotId ++ "_" ++ Nat.repr counter

theorem string_data_append (a b : String) : (a ++ b).data = a.data ++ b.data := rfl

theorem uidOf_inj (s : String) {a b : Nat} (h : uidOf s a = uidOf s b) : a = b := by
  have hdata := congrArg String.data h
  simp only [uidOf, string_data_append] at hdata
  have hrepr : (Nat.repr a).data = (Nat.repr b).data := List.append_cancel_left hdata
  exact natRepr_inj (congrArg String.mk hrepr)

/-! ### Hook installer

Embedding of the `hookBootstrap` script of `src/ReactSession.ts`
(lines 55-92).  The script is:

```js
(function initReactHook(){
  const existing = globalThis.__REACT_DEVTOOLS_GLOBAL_HOOK__;
  const renderers = existing?.renderers || new Map();
  const fiberRootsMap = existing?._fiberRoots || new Map();
  let nextId = renderers.size + 1;
  const injectBase = typeof existing?.inject === 'function' ? existing.inject : null;
  const onCommitBase = typeof existing?.onCommitFiberRoot === 'function'
    ? existing.onCommitFiberRoot : null;
  const hook = existing || {};
  hook.renderers = renderers;
  hook._fiberRoots = fiberRootsMap;
  hook.inject = function (renderer) {
    const id = injectBase ? injectBase.call(this, renderer) : nextId++;
    try { renderers.set(id, renderer); } catch (e) {}
    return id;
  };
  hook.onCommitFiberRoot = function (id, root, ...rest) {
    let roots = fiberRootsMap.get(id);
    if (!roots) { roots = new Set(); fiberRootsMap.set(id, roots); }
    roots.add(root);
    if (onCommitBase) { try { onCommitBase.call(this, id, root, ...rest); } catch (e) {} }
  };
  globalThis.__REACT_DEVTOOLS_GLOBAL_HOOK__ = hook;
})();
```

The hook's `inject` and `onCommitFiberRoot` functions are closures that
chain to the functions present before the install, so they are modelled as
inductive chain values (`InjectImpl`, `CommitImpl`) interpreted against the
shared `renderers` and `_fiberRoots` maps.  A fresh `inject` closure owns a
mutable `nextId` counter, which the interpretation threads through; a
wrapper closure also captures a `nextId` (from `renderers.size + 1` at its
install time) but never reads it, because `injectBase` is non-null for it.
Maps are insertion-ordered association lists (JavaScript `Map`), sets are
insertion-ordered duplicate-free lists (JavaScript `Set`); renderer objects
and fiber-root objects are opaque and named by natural numbers. -/

/-- Insertion-ordered map update (`Map.prototype.set`): overwrites in place
or appends. -/
def mapSet {α : Type} : List (Nat × α) → Nat → α → List (Nat × α)
  | [], k, v => [(k, v)]
  | (k', v') :: rest, k, v =>
    if k' = k then (k, v) :: rest else (k', v') :: mapSet rest k v

/-- Map lookup (`Map.prototype.get`); `none` models `undefined`. -/
def mapGet {α : Type} : List (Nat × α) → Nat → Option α
  | [], _ => none
  | (k', v') :: rest, k => if k' = k then some v' else mapGet rest k

/-- Set insertion (`Set.prototype.add`): appends when absent. -/
def setAdd (s : List Nat) (x : Nat) : List Nat :=
  if s.contains x then s else s ++ [x]

/-- The chain of installed `hook.inject` closures.  `fresh nextId` is a
closure whose `injectBase` is null and whose counter currently holds
`nextId`; `wrap unusedNextId inner` chains to `inner` (its own captured
counter is never read). -/
inductive InjectImpl where
  | fresh (nextId : Nat)
  | wrap (unusedNextId : Nat) (inner : InjectImpl)
deriving Repr, DecidableEq

/-- The chain of installed `hook.onCommitFiberRoot` closures; `fresh` has a
null `onCommitBase`. -/
inductive CommitImpl where
  | fresh
  | wrap (inner : CommitImpl)
deriving Repr, DecidableEq

/-- Hook object state: the shared renderer registration map, the shared
root-set map, and the two function chains. -/
structure HookState where
  renderers : List (Nat × Nat)
  fiberRoots : List (Nat × List Nat)
  injectF : InjectImpl
  commitF : CommitImpl
deriving Repr, DecidableEq

/-- The inspected runtime: `none` while no hook object exists. -/
def HookRuntime : Type := Option HookState

/-- Running the `hookBootstrap` script once: reuses the existing maps and
wraps the existing functions when a hook exists, otherwise creates fresh
state (`nextId = renderers.size + 1` with an empty map is `1`). -/
def installHook : HookRuntime → HookRuntime
  | none => some ⟨[], [], .fresh 1, .fresh⟩
  | some h =>
    some ⟨h.renderers, h.fiberRoots,
          .wrap (h.renderers.length + 1) h.injectF, .wrap h.commitF⟩

/-- Calling the installed `hook.inject(renderer)`: returns the allocated id
together with the updated closure chain and registration map.  A wrapper
first obtains the id from its `injectBase` (which already registered the
renderer) and then re-registers the same pair. -/
def execInject : InjectImpl → List (Nat × Nat) → Nat →
    Nat × InjectImpl × List (Nat × Nat)
  | .fresh nextId, renderers, renderer =>
    (nextId, .fresh (nextId + 1), mapSet renderers nextId renderer)
  | .wrap u inner, renderers, renderer =>
    let out := execInject inner renderers renderer
    (out.1, .wrap u out.2.1, mapSet out.2.2 out.1 renderer)

/-- Calling the installed `hook.onCommitFiberRoot(id, root)`: every layer
adds `root` to the (shared, created-if-missing) root set for `id`, then
chains to its `onCommitBase`. -/
def execCommit : CommitImpl → List (Nat × List Nat) → Nat → Nat →
    List (Nat × List Nat)
  | .fresh, fiberRoots, id, root =>
    mapSet fiberRoots id (setAdd ((mapGet fiberRoots id).getD []) root)
  | .wrap inner, fiberRoots, id, root =>
    execCommit inner (mapSet fiberRoots id (setAdd ((mapGet fiberRoots id).getD []) root)) id root

/-- Events the embedded runtime can observe: a run of the bootstrap script,
a renderer registration (`hook.inject`), or a commit notification
(`hook.onCommitFiberRoot`).  Registrations and commits are dropped when no
hook exists (nothing to call). -/
inductive HookOp where
  | install
  | inject (renderer : Nat)
  | commit (id : Nat) (root : Nat)
deriving Repr, DecidableEq

/-- One observed event applied to the runtime. -/
def stepOp : HookRuntime → HookOp → HookRuntime
  | rt, .install => installHook rt
  | none, .inject _ => none
  | some h, .inject renderer =>
    let out := execInject h.injectF h.renderers renderer
    some { h with injectF := out.2.1, renderers := out.2.2 }
  | none, .commit _ _ => none
  | some h, .commit id root =>
    some { h with fiberRoots := execCommit h.commitF h.fiberRoots id root }

/-- A sequence of observed events from a given runtime state. -/
def runOps (rt : HookRuntime) : List HookOp → HookRuntime
  | [] => rt
  | op :: rest => runOps (stepOp rt op) rest

/-- Registration map of the runtime (empty while no hook exists). -/
def renderersOf : HookRuntime → List (Nat × Nat)
  | none => []
  | some h => h.renderers

/-- Root set recorded for a registration id, as read by
`hook.getFiberRoots(id)` (`_fiberRoots.get(id) || new Set()`). -/
def rootsOf (rt : HookRuntime) (id : Nat) : List Nat :=
  match rt with
  | none => []
  | some h => (mapGet h.fiberRoots id).getD []

/-! ### Accessibility tree reader

Embedding of `takeSnapshot` (`src/ReactSession.ts`, lines 282-369).  The
CDP `Accessibility.getFullAXTree` call returns a flat node list; the code
indexes it by `nodeId`, indexes the declared `childIds`, and materializes a
hierarchy from the first node via `processNode`, assigning each retained
node the UID `${snapshotId}_${uidCounter++}`.  The AX property wrappers
(`node.role?.value` etc.) are modelled as the unwrapped optional values.
`processNode` recurses through the `childIds` index, so the embedding
carries an explicit fuel; the source terminates on the acyclic trees CDP
produces, and every theorem below holds for every fuel. -/

/-- Flat CDP accessibility node, as consumed by `takeSnapshot`. -/
structure AXNode where
  nodeId : Nat
  ignored : Bool
  role : Option String
  name : Option String
  value : Option String
  description : Option String
  keyshortcuts : Option String
  roledescription : Option String
  disabled : Option Bool
  expanded : Option Bool
  focused : Option Bool
  checked : Option String
  pressed : Option String
  backendDOMNodeId : Option Nat
  childIds : List Nat
deriving Repr, DecidableEq

/-- Materialized snapshot node built by `processNode`.  Optional fields are
absent exactly when the source object would lack the property; `children`
is `none` when the source attaches no `children` field (which it does only
for a non-empty list). -/
inductive SnapNode where
  | mk (role name : Option String) (uid : String) (backendDOMNodeId : Option Nat)
       (value description keyshortcuts roledescription : Option String)
       (disabled expanded focused : Option Bool)
       (checked pressed : Option String)
       (children : Option (List SnapNode))
deriving Repr

/-- UID of a materialized node. -/
def SnapNode.uid : SnapNode → String
  | .mk _ _ u _ _ _ _ _ _ _ _ _ _ _ => u

/-- Children field of a materialized node. -/
def SnapNode.children : SnapNode → Option (List SnapNode)
  | .mk _ _ _ _ _ _ _ _ _ _ _ _ _ cs => cs

/-- Role of a materialized node. -/
def SnapNode.role : SnapNode → Option String
  | .mk r _ _ _ _ _ _ _ _ _ _ _ _ _ => r

/-- Accessible name of a materialized node. -/
def SnapNode.name : SnapNode → Option String
  | .mk _ n _ _ _ _ _ _ _ _ _ _ _ _ => n

/-- Backend DOM node id of a materialized node. -/
def SnapNode.backendDOMNodeId : SnapNode → Option Nat
  | .mk _ _ _ b _ _ _ _ _ _ _ _ _ _ => b

/-- Sequential left-to-right processing of a `childIds` array by the
fuel-decremented `processNode` (the source's `childIds.map(...)`), looking
each id up in the `nodeId` index and threading the `uidCounter`.  An id
that misses the index contributes `null` without consuming the counter. -/
def processChildIds (nodeMap : Nat → Option AXNode)
    (f : AXNode → Nat → Option SnapNode × Nat) :
    List Nat → Nat → List (Option SnapNode) × Nat
  | [], c => ([], c)
  | cid :: rest, c =>
    let o1 := match nodeMap cid with
      | some child => f child c
      | none => (none, c)
    let o2 := processChildIds nodeMap f rest o1.2
    (o1.1 :: o2.1, o2.2)

/-- Embedding of `processNode` (lines 313-354).  Returns the materialized
node (or `null` for a pruned node) and the updated `uidCounter`. -/
def processNode (nodeMap : Nat → Option AXNode) (childrenMap : Nat → List Nat)
    (verbose : Bool) (snapshotId : String) :
    Nat → AXNode → Nat → Option SnapNode × Nat
  | 0, _, c => (none, c)
  | fuel + 1, node, c =>
    if !verbose && node.ignored then (none, c)
    else
      let uid := uidOf snapshotId c
      let childIds := childrenMap node.nodeId
      let out :=
        if childIds.length > 0 then
          let processed := processChildIds nodeMap
            (processNode nodeMap childrenMap verbose snapshotId fuel) childIds (c + 1)
          let children := processed.1.filterMap id
          ((if children.length > 0 then some children else none), processed.2)
        else (none, c + 1)
      (some (.mk node.role node.name uid node.backendDOMNodeId node.value
        node.description node.keyshortcuts node.roledescription node.disabled
        node.expanded node.focused node.checked node.pressed out.1), out.2)

/-- The `nodeId → node` index (`nodeMap`), built with `Map.set` over the
flat list. -/
def buildNodeMap (nodes : List AXNode) : List (Nat × AXNode) :=
  nodes.foldl (fun m node => mapSet m node.nodeId node) []

/-- The `nodeId → childIds` index (`childrenMap`), set only for nodes that
declare a non-empty `childIds` array. -/
def buildChildrenMap (nodes : List AXNode) : List (Nat × List Nat) :=
  nodes.foldl
    (fun m node =>
      if node.childIds.length > 0 then mapSet m node.nodeId node.childIds else m) []

/-- Result of `takeSnapshot`: the materialized root (possibly `null` when
the root itself is pruned) and the snapshot token. -/
structure Snapshot where
  root : Option SnapNode
  snapshotId : String

/-- Embedding of `takeSnapshot`.  `snapshotId` stands for the external
clock read `Date.now().toString()`; `fuel` bounds the `processNode`
recursion as discussed above.  Returns `none` when the flat list is
empty. -/
def takeSnapshotModel (nodes : List AXNode) (verbose : Bool)
    (snapshotId : String) (fuel : Nat) : Option Snapshot :=
  match nodes.head? with
  | none => none
  | some rootNode =>
    let nm := fun k => mapGet (buildNodeMap nodes) k
    let cm := fun k => (mapGet (buildChildrenMap nodes) k).getD []
    let out := processNode nm cm verbose snapshotId fuel rootNode 0
    some ⟨out.1, snapshotId⟩

/-- Accessibility info recorded per backend DOM node id by
`getComponentMap`. -/
structure AxInfo where
  role : Option String
  name : Option String
deriving Repr, DecidableEq

mutual

/-- Embedding of the `buildAxMap` closure of `getComponentMap`
(lines 380-392): walks the snapshot hierarchy accumulating
`backendDOMNodeId → (role, name)` into the (mutated, here threaded)
`axNodeMap`.  The JavaScript truthiness test `if (node.backendDOMNodeId)`
skips both an absent id and the id `0`. -/
def buildAxMap : SnapNode → List (Nat × AxInfo) → List (Nat × AxInfo)
  | .mk role name _ backendId _ _ _ _ _ _ _ _ _ children, acc =>
    let acc1 := match backendId with
      | some b => if b ≠ 0 then mapSet acc b ⟨role, name⟩ else acc
      | none => acc
    match children with
    | none => acc1
    | some cs => buildAxMapList cs acc1

/-- Left-to-right fold of `buildAxMap` over a children list. -/
def buildAxMapList : List SnapNode → List (Nat × AxInfo) → List (Nat × AxInfo)
  | [], acc => acc
  | n :: rest, acc => buildAxMapList rest (buildAxMap n acc)

end

mutual

/-- UID strings of a materialized subtree in depth-first pre-order (the
node's own UID, then the UIDs of its children left to right). -/
def preorderUids : SnapNode → List String
  | .mk _ _ u _ _ _ _ _ _ _ _ _ _ none => [u]
  | .mk _ _ u _ _ _ _ _ _ _ _ _ _ (some cs) => u :: preorderUidsList cs

/-- Concatenated pre-order UID lists of a forest. -/
def preorderUidsList : List SnapNode → List String
  | [] => []
  | n :: rest => preorderUids n ++ preorderUidsList rest

end

/-! ### Fiber tree model

A React fiber exposes a numeric `tag`, name-bearing references
(`type.displayName`, `type.name`, `elementType.name`, the `render` and
inner `type` variants used for forward refs and memo components), the
last-committed props and state, and `child`/`sibling`/`return` pointers.
The `child`/`sibling` chain below a node is modelled as the `children`
list; a `return` chain is modelled as a `List Fiber` whose head is the
starting fiber.  Name fields use `Option String`, with JavaScript `||`
falsiness (absent or empty string). -/

/-- Read-only view of a React fiber node. -/
inductive Fiber where
  | mk (tag : Nat)
       (typeDisplayName typeName elementTypeName : Option String)
       (typeRenderDisplayName typeRenderName elementTypeRenderName : Option String)
       (typeTypeDisplayName typeTypeName elementTypeTypeName : Option String)
       (memoizedProps : Option (List (String × JVal)))
       (memoizedState : Option JVal)
       (children : List Fiber)

/-- Tag of a fiber. -/
def Fiber.tag : Fiber → Nat
  | .mk t _ _ _ _ _ _ _ _ _ _ _ _ => t

/-- The fiber's `type.displayName`. -/
def Fiber.typeDisplayName : Fiber → Option String
  | .mk _ a _ _ _ _ _ _ _ _ _ _ _ => a

/-- The fiber's `type.name`. -/
def Fiber.typeName : Fiber → Option String
  | .mk _ _ a _ _ _ _ _ _ _ _ _ _ => a

/-- The fiber's `elementType.name`. -/
def Fiber.elementTypeName : Fiber → Option String
  | .mk _ _ _ a _ _ _ _ _ _ _ _ _ => a

/-- The fiber's `type.render.displayName`. -/
def Fiber.typeRenderDisplayName : Fiber → Option String
  | .mk _ _ _ _ a _ _ _ _ _ _ _ _ => a

/-- The fiber's `type.render.name`. -/
def Fiber.typeRenderName : Fiber → Option String
  | .mk _ _ _ _ _ a _ _ _ _ _ _ _ => a

/-- The fiber's `elementType.render.name`. -/
def Fiber.elementTypeRenderName : Fiber → Option String
  | .mk _ _ _ _ _ _ a _ _ _ _ _ _ => a

/-- The fiber's `type.type.displayName`. -/
def Fiber.typeTypeDisplayName : Fiber → Option String
  | .mk _ _ _ _ _ _ _ a _ _ _ _ _ => a

/-- The fiber's `type.type.name`. -/
def Fiber.typeTypeName : Fiber → Option String
  | .mk _ _ _ _ _ _ _ _ a _ _ _ _ => a

/-- The fiber's `elementType.type.name`. -/
def Fiber.elementTypeTypeName : Fiber → Option String
  | .mk _ _ _ _ _ _ _ _ _ a _ _ _ => a

/-- The fiber's `memoizedProps` (ordered entries; `none` models a missing
props object). -/
def Fiber.memoizedProps : Fiber → Option (List (String × JVal))
  | .mk _ _ _ _ _ _ _ _ _ _ p _ _ => p

/-- The fiber's `memoizedState`. -/
def Fiber.memoizedState : Fiber → Option JVal
  | .mk _ _ _ _ _ _ _ _ _ _ _ s _ => s

/-- The fibers reachable from `fiber.child` via `sibling`, in order. -/
def Fiber.children : Fiber → List Fiber
  | .mk _ _ _ _ _ _ _ _ _ _ _ _ cs => cs

/-- JavaScript truthiness of an optional string (`undefined` and the empty
string are falsy). -/
def strTruthy : Option String → Bool
  | none => false
  | some s => s != ""

/-- JavaScript `a || b` on optional strings. -/
def jsOrS (a b : Option String) : Option String :=
  if strTruthy a then a else b

/-- JavaScript `a || 'd'` on an optional string against a literal default. -/
def jsStrDefault (a : Option String) (d : String) : String :=
  if strTruthy a then a.getD d else d

/-- Embedding of the `getComponentName` helper of `getComponentMap`
(`src/ReactSession.ts`, lines 404-429). -/
def getComponentNameCM (f : Fiber) : String :=
  if strTruthy f.typeDisplayName then f.typeDisplayName.getD "" else
  match f.tag with
  | 0 => jsStrDefault (jsOrS f.typeName f.elementTypeName) "Anonymous"
  | 1 => jsStrDefault (jsOrS f.typeName f.elementTypeName) "Anonymous"
  | 11 => jsStrDefault
      (jsOrS f.typeRenderDisplayName (jsOrS f.typeRenderName f.elementTypeRenderName))
      "ForwardRef"
  | 15 => jsStrDefault
      (jsOrS f.typeTypeDisplayName (jsOrS f.typeTypeName f.elementTypeTypeName))
      "Memo"
  | _ => "Unknown"

/-- Embedding of the `getComponentName` helper of
`getReactComponentFromSnapshot` (`src/unnamed/part_001`, lines 751-764);
this copy has no `elementType` fallbacks for forward refs and memo
components. -/
def getComponentNameSnap (f : Fiber) : String :=
  if strTruthy f.typeDisplayName then f.typeDisplayName.getD "" else
  match f.tag with
  | 0 => jsStrDefault (jsOrS f.typeName f.elementTypeName) "Anonymous"
  | 1 => jsStrDefault (jsOrS f.typeName f.elementTypeName) "Anonymous"
  | 11 => jsStrDefault (jsOrS f.typeRenderDisplayName f.typeRenderName) "ForwardRef"
  | 15 => jsStrDefault (jsOrS f.typeTypeDisplayName f.typeTypeName) "Memo"
  | _ => "Unknown"

/-- Embedding of the `getComponentType` helper
(`src/unnamed/part_001`, lines 766-774). -/
def getComponentType (tag : Nat) : String :=
  match tag with
  | 0 => "FunctionComponent"
  | 1 => "ClassComponent"
  | 11 => "ForwardRef"
  | 15 => "MemoComponent"
  | t => "UnknownTag(" ++ Nat.repr t ++ ")"

/-- Decimal rendering of an integer, as JavaScript string conversion
produces for integral numbers. -/
def intStr (i : Int) : String :=
  if i < 0 then "-" ++ Nat.repr i.natAbs else Nat.repr i.natAbs

/-- Model of `parseInt(v, 10)` restricted to the digit-string attribute
values that occur in the inspected pages: the leading decimal digits of a
string (or an integral number) parsed as a number, `none` for `NaN`. -/
def jsParseInt (v : JVal) : Option Int :=
  match v with
  | .vnum n => some n
  | .vstr s =>
    let ds := s.data.takeWhile Char.isDigit
    if ds.isEmpty then none
    else some (Int.ofNat (ds.foldl (fun acc c => acc * 10 + (c.toNat - 48)) 0))
  | _ => none

/-- Extracted source location: the raw `data-inspector-relative-path` value
(`undefined` when falsy) and the parsed line and column numbers.  The
source stores `parseInt(...)` or `undefined`; the embedding flattens a
`NaN` parse into `none` as well, which the formatting below cannot
distinguish (both are falsy). -/
structure SourceLoc where
  fileName : JVal
  lineNumber : Option Int
  columnNumber : Option Int
deriving Repr, DecidableEq

/-- Embedding of the `extractSource` helper (`src/ReactSession.ts`,
lines 432-449): reads the `data-inspector-*` props and returns `null` when
all three are falsy. -/
def extractSource (f : Fiber) : Option SourceLoc :=
  match f.memoizedProps with
  | none => none
  | some props =>
    let fileName := jsGetField props "data-inspector-relative-path"
    let lineNumber := jsGetField props "data-inspector-line"
    let columnNumber := jsGetField props "data-inspector-column"
    if jsTruthy fileName || jsTruthy lineNumber || jsTruthy columnNumber then
      some ⟨if jsTruthy fileName then fileName else .vundefined,
            if jsTruthy lineNumber then jsParseInt lineNumber else none,
            if jsTruthy columnNumber then jsParseInt columnNumber else none⟩
    else none

/-- Template rendering of a JavaScript value (the cases that occur as
`data-inspector-relative-path` values). -/
def jsDisplay : JVal → String
  | .vstr s => s
  | .vnum n => intStr n
  | .vbool b => if b then "true" else "false"
  | .vnull => "null"
  | .vundefined => "undefined"
  | .vfunc _ => "function"
  | .vref _ => "[object Object]"

/-- Rendering of `${x || '?'}` for the optional numbers of a source
location (`0`, `NaN` and `undefined` all print as `?`). -/
def renderOptInt : Option Int → String
  | none => "?"
  | some k => if k = 0 then "?" else intStr k

/-- JSON string escaping (quote and backslash; the only special characters
in the states considered). -/
def jsonEscape (s : String) : String :=
  ⟨s.data.flatMap (fun c => if c = '"' || c = '\\' then ['\\', c] else [c])⟩

mutual

/-- Model of `JSON.stringify` on serializer output.  In objects, entries
whose value is `undefined` or a function are dropped; in arrays they
render as `null`; a top-level `undefined` or function renders as the text
`undefined` (where the source would throw on `.length`, a case unreachable
for the truthy states the call site guards). -/
def jsonStringify : SVal → String
  | .sundefined => "undefined"
  | .snull => "null"
  | .sbool b => if b then "true" else "false"
  | .snum n => intStr n
  | .sstr s => "\"" ++ jsonEscape s ++ "\""
  | .sfunc _ => "undefined"
  | .sarr items => "[" ++ String.intercalate "," (jsonArrItems items) ++ "]"
  | .sobj fields => "\x7b" ++ String.intercalate "," (jsonObjFields fields) ++ "\x7d"

/-- JSON rendering of array elements (`undefined` and functions become
`null`). -/
def jsonArrItems : List SVal → List String
  | [] => []
  | .sundefined :: rest => "null" :: jsonArrItems rest
  | .sfunc _ :: rest => "null" :: jsonArrItems rest
  | v :: rest => jsonStringify v :: jsonArrItems rest

/-- JSON rendering of object entries (`undefined` and function values are
dropped). -/
def jsonObjFields : List (String × SVal) → List String
  | [] => []
  | (_, .sundefined) :: rest => jsonObjFields rest
  | (_, .sfunc _) :: rest => jsonObjFields rest
  | (k, v) :: rest =>
    ("\"" ++ jsonEscape k ++ "\":" ++ jsonStringify v) :: jsonObjFields rest

end

/-- Props summary appended to a component line by `walkFiber`
(lines 506-513): up to three non-internal, non-`children` prop keys in
braces. -/
def propsSummary (f : Fiber) : String :=
  match f.memoizedProps with
  | none => ""
  | some props =>
    let propsKeys := (props.map Prod.fst).filter (fun k =>
      !(k.startsWith "__react") && !(k.startsWith "data-inspector") && k != "children")
    if propsKeys.length > 0 then
      " \x7b" ++ String.intercalate ", " (propsKeys.take 3) ++ "\x7d"
    else ""

/-- State summary appended to a component line by `walkFiber`
(lines 516-524): the state serialized at depth 1 by the inline serializer,
stringified, and elided to `\x7b...\x7d` when 50 characters or longer. -/
def stateSummary (heap : Nat → HObj) (includeState : Bool) (f : Fiber) : String :=
  if includeState && jsTruthy ((f.memoizedState).getD .vundefined) then
    match f.memoizedState with
    | none => ""
    | some st =>
      let state := (serVal heap 10 20 1 [] st).1
      let stateStr := jsonStringify state
      if stateStr.length < 50 then " state=" ++ stateStr
      else " state=\x7b...\x7d"
  else ""

/-- Source-location suffix appended to a component line by `walkFiber`
(lines 527-534): `(file:line:col)` when a file name is present. -/
def sourceSummary (f : Fiber) : String :=
  match extractSource f with
  | none => ""
  | some src =>
    let loc := if jsTruthy src.fileName then
        jsDisplay src.fileName ++ ":" ++ renderOptInt src.lineNumber ++ ":"
          ++ renderOptInt src.columnNumber
      else ""
    if loc != "" then " (" ++ loc ++ ")" else ""

/-- Global replacement of a two-character pattern in a character list
(leftmost, non-overlapping), modelling the source's
`String.prototype.replace` with a global two-character regex. -/
def replace2 (p1 p2 r1 r2 : Char) : List Char → List Char
  | [] => []
  | [c] => [c]
  | c1 :: c2 :: rest =>
    if c1 = p1 ∧ c2 = p2 then r1 :: r2 :: replace2 p1 p2 r1 r2 rest
    else c1 :: replace2 p1 p2 r1 r2 (c2 :: rest)

/-- The child prefix computed by `walkFiber` (line 539):
`prefix.replace(/├─/g, '│ ').replace(/└─/g, '  ')`. -/
def childPrefixOf (pfx : String) : String :=
  ⟨replace2 '└' '─' ' ' ' ' (replace2 '├' '─' '│' ' ' pfx.data)⟩

mutual

/-- Embedding of the `walkFiber` closure of `getComponentMap`
(lines 490-569), returning the pushed lines in order.  An authored
component (tag 0, 1, 11 or 15) emits one line and recurses into its
children with box-drawing connectors; a host element (tag 5) and every
other tag emit nothing and recurse with unchanged `pfx`, `depth` and
`isLast`.  The source's `processedFibers` WeakSet never fires on the tree
unfolding of the `child`/`sibling` graph (each node is reached once), so
it has no counterpart here. -/
def walkFiber (heap : Nat → HObj) (includeState : Bool) :
    Fiber → Nat → String → Bool → List String
  | f@(.mk _ _ _ _ _ _ _ _ _ _ _ _ cs), depth, pfx, isLast =>
    if (f.tag == 0 || f.tag == 1 || f.tag == 11 || f.tag == 15) then
      let line := pfx ++ getComponentNameCM f ++ propsSummary f
        ++ stateSummary heap includeState f ++ sourceSummary f
      let childPrefix := childPrefixOf pfx
      line :: walkChildrenConn heap includeState cs (depth + 1) childPrefix
    else
      walkChildrenFlat heap includeState cs depth pfx isLast

/-- Children of a component line, each with its connector (`└─` for the
last child, `├─` otherwise). -/
def walkChildrenConn (heap : Nat → HObj) (includeState : Bool) :
    List Fiber → Nat → String → List String
  | [], _, _ => []
  | [c], depth, childPrefix =>
    walkFiber heap includeState c depth (childPrefix ++ "└─ ") true
  | c :: rest, depth, childPrefix =>
    walkFiber heap includeState c depth (childPrefix ++ "├─ ") false
      ++ walkChildrenConn heap includeState rest depth childPrefix

/-- Children of a host or transparent fiber, traversed with the parent's
own position parameters. -/
def walkChildrenFlat (heap : Nat → HObj) (includeState : Bool) :
    List Fiber → Nat → String → Bool → List String
  | [], _, _, _ => []
  | c :: rest, depth, pfx, isLast =>
    walkFiber heap includeState c depth pfx isLast
      ++ walkChildrenFlat heap includeState rest depth pfx isLast

end

/-- The in-page fiber walk of `getComponentMap` (lines 571-595): an error
when the hook is absent or no root exists, otherwise the header lines
followed by the walk of every root's `current` fiber. -/
def fiberWalkResult (heap : Nat → HObj) (hookPresent : Bool)
    (roots : List Fiber) (includeState : Bool) : Except String (List String) :=
  if !hookPresent then .error "React DevTools hook not found or no renderers"
  else match roots with
  | [] => .error "No React roots found"
  | _ =>
    .ok ("React Component Tree:" :: "" ::
      (roots.map (fun f => walkFiber heap includeState f 0 "" true)).flatten)

/-- Embedding of `getComponentMap` (lines 371-605).  The accessibility
snapshot is taken, `buildAxMap` indexes it — and the index is then never
consulted: the in-page walk receives only `includeState`.  (On a snapshot
whose root is `null` the source's `buildAxMap(null)` would throw; that
case is modelled as the empty index and is unreachable in the theorems
below.) -/
def getComponentMapModel (nodes : List AXNode) (verbose includeState : Bool)
    (snapshotId : String) (fuel : Nat) (hookPresent : Bool)
    (heap : Nat → HObj) (roots : List Fiber) : Option String :=
  match takeSnapshotModel nodes verbose snapshotId fuel with
  | none => none
  | some snap =>
    let _axNodeMap : List (Nat × AxInfo) :=
      match snap.root with
      | some root => buildAxMap root []
      | none => []
    match fiberWalkResult heap hookPresent roots includeState with
    | .error e => some ("Error: " ++ e)
    | .ok lines => some (String.intercalate "\n" lines)

/-! ### Ancestor walk of `get_react_component_from_snapshot`

Embedding of the fiber loop of `getReactComponentFromSnapshot`
(`src/unnamed/part_001`, lines 736-748):

```js
let fiber = targetElement[fiberKey];
let maxSteps = 20;
while (fiber && maxSteps > 0) {
  maxSteps--;
  if ([0, 1, 11, 15].includes(fiber.tag)) break;
  fiber = fiber.return;
}
if (!fiber) return {success: false, error: 'No React component found in fiber tree'};
```

The `return` chain starting at the element's fiber is a list whose head is
the current fiber; `none` is a null fiber. -/

/-- Authored-component tag test (`[0, 1, 11, 15].includes(tag)`). -/
def isAuthoredTag (t : Nat) : Bool :=
  t == 0 || t == 1 || t == 11 || t == 15

/-- The while loop above: returns the value of `fiber` after the loop. -/
def fiberWalkUp : List Fiber → Nat → Option Fiber
  | [], _ => none
  | f :: _, 0 => some f
  | f :: rest, maxSteps + 1 =>
    if isAuthoredTag f.tag then some f else fiberWalkUp rest maxSteps

/-- Outcome of `getReactComponentFromSnapshot` after the element has been
resolved to a fiber: the failure payload, or the success payload's
component name and type (its further fields — props, state, source,
owners — are not modelled). -/
inductive ComponentLookup where
  | failure (error : String)
  | found (name : String) (ctype : String)
deriving Repr, DecidableEq

/-- The tool's result on a resolved fiber chain: `success: false` only when
the loop exited with a null fiber; otherwise the component payload is
extracted from whatever fiber the loop stopped at. -/
def getReactComponentOutcome (chain : List Fiber) : ComponentLookup :=
  match fiberWalkUp chain 20 with
  | none => .failure "No React component found in fiber tree"
  | some f => .found (getComponentNameSnap f) (getComponentType f.tag)

/-! ### Concrete inputs used by the theorems -/

/-- A host fiber (tag 5, e.g. a `button` element): no name-bearing
references. -/
def hostFiber : Fiber :=
  .mk 5 none none none none none none none none none none none []

/-- A fiber chain of 21 host elements: longer than the 20-step budget and
containing no authored component. -/
def hostChain : List Fiber := List.replicate 21 hostFiber

/-- Function component fiber named `App`, rendering one host element. -/
def appFiber : Fiber :=
  .mk 0 none (some "App") none none none none none none none none none [hostFiber]

/-- Host-root fiber (tag 3) whose tree contains `App` above a single host
element. -/
def rootFiber : Fiber :=
  .mk 3 none none none none none none none none none none none [appFiber]

/-- Flat accessibility list with one button node (`backendDOMNodeId 42`,
role `button`, name `Log in`). -/
def buttonAxNodes : List AXNode :=
  [⟨1, false, some "button", some "Log in", none, none, none, none,
    none, none, none, none, none, some 42, []⟩]

/-! ### Engine result shapes of `attach` and `listRoots`

`attach` (`src/ReactSession.ts`, lines 149-208) catches the injection
failure of `ensureBackendInjected` and returns a failure payload;
`listRoots` (lines 210-280) does not catch it, and additionally rethrows an
error reported by its in-page evaluation:

```js
const {results, error} = await this.#page.evaluate(() => { ... });
if (error) { throw new Error(error); }
return results;
```

The boundary crossings are modelled by their observable outcomes: the
injection attempt as `Except String Unit`, the in-page evaluation as the
`{results, error}` pair it returns, and a thrown exception as the `error`
case of the returned `Except`. -/

/-- Renderer entry listed by `attach`. -/
structure RendererInfo where
  id : Nat
  name : Option String
  version : Option String
  bundleType : Option Nat
deriving Repr, DecidableEq

/-- Result payload of `attach`. -/
structure ReactAttachResult where
  attached : Bool
  renderers : List RendererInfo
  message : Option String
deriving Repr, DecidableEq

/-- Embedding of `attach`: an injection failure is caught and returned as a
structured failure payload; otherwise the renderer list read from the hook
is returned with `attached: true`. -/
def attachModel (injection : Except String Unit)
    (renderers : List RendererInfo) : ReactAttachResult :=
  match injection with
  | .error msg => ⟨false, [], some msg⟩
  | .ok _ => ⟨true, renderers, none⟩

/-- Root entry listed by `listRoots`. -/
structure ReactRootInfo where
  rendererId : Nat
  rendererName : Option String
  rendererVersion : Option String
  rootId : String
  rootIndex : Nat
  displayName : Option String
  nodes : Option Nat
deriving Repr, DecidableEq

/-- The `{results, error}` object returned by the in-page evaluation of
`listRoots` (its `catch` stores the message in `error`). -/
structure ListRootsEval where
  results : List ReactRootInfo
  error : Option String
deriving Repr, DecidableEq

/-- Embedding of `listRoots`: an injection failure propagates (it is not
caught), and a reported evaluation error is rethrown
(`throw new Error(error)`); only otherwise are the results returned. -/
def listRootsModel (injection : Except String Unit)
    (ev : ListRootsEval) : Except String (List ReactRootInfo) :=
  match injection with
  | .error msg => .error msg
  | .ok _ =>
    match ev.error with
    | some msg => .error msg
    | none => .ok ev.results

/-! ### Observation functions and demo inputs for the theorems -/

/-- Pre-order UID list of an optional node (`null` contributes nothing). -/
def uidsOfOpt : Option SnapNode → List String
  | none => []
  | some t => preorderUids t

mutual

/-- No materialized node carries an empty `children` list (the source
attaches the field only when at least one child survived). -/
def noEmptyChildren : SnapNode → Bool
  | .mk _ _ _ _ _ _ _ _ _ _ _ _ _ none => true
  | .mk _ _ _ _ _ _ _ _ _ _ _ _ _ (some cs) => !cs.isEmpty && noEmptyChildrenList cs

/-- The `noEmptyChildren` check over a children list. -/
def noEmptyChildrenList : List SnapNode → Bool
  | [] => true
  | n :: rest => noEmptyChildren n && noEmptyChildrenList rest

end

/-- Demo root accessibility node declaring two children. -/
def demoRootAX : AXNode :=
  ⟨1, false, some "RootWebArea", some "Page", none, none, none, none,
   none, none, none, none, none, some 7, [2, 3]⟩

/-- Demo flat accessibility list: a root with two children. -/
def demoNodes : List AXNode :=
  [demoRootAX,
   ⟨2, false, some "button", some "Log in", none, none, none, none,
    none, none, none, none, none, some 8, []⟩,
   ⟨3, false, some "heading", some "Welcome", none, none, none, none,
    none, none, none, none, none, some 9, []⟩]

/-- The root `takeSnapshot` materializes from `demoNodes` with snapshot
token `99`. -/
def demoRoot : SnapNode :=
  .mk (some "RootWebArea") (some "Page") "99_0" (some 7)
    none none none none none none none none none
    (some [.mk (some "button") (some "Log in") "99_1" (some 8)
             none none none none none none none none none none,
           .mk (some "heading") (some "Welcome") "99_2" (some 9)
             none none none none none none none none none none])

/-- An ignored accessibility node with children declared. -/
def ignoredNode : AXNode :=
  ⟨4, true, some "generic", none, none, none, none, none,
   none, none, none, none, none, some 11, [2, 3]⟩

/-- Demo hook state: one installation, renderer 1 registered, root 10
recorded for it. -/
def hDemo : HookState := ⟨[(1, 7)], [(1, [10])], .fresh 2, .fresh⟩

/-!
## Theorems

One theorem per claim of the specification review, with the supporting
lemmas first.
-/

/-! ### Association list and set lemmas -/

theorem mapGet_mapSet_self {α : Type} (m : List (Nat × α)) (k : Nat) (v : α) :
    mapGet (mapSet m k v) k = some v := by
  induction m with
  | nil => simp [mapSet, mapGet]
  | cons p rest ih =>
    by_cases h : p.1 = k <;> simp [mapSet, mapGet, h, ih]

theorem mapSet_unchanged {α : Type} (m : List (Nat × α)) (k : Nat) (v : α)
    (h : mapGet m k = some v) : mapSet m k v = m := by
  induction m with
  | nil => simp [mapGet] at h
  | cons p rest ih =>
    obtain ⟨a, b⟩ := p
    by_cases hk : a = k
    · simp [mapGet, hk] at h
      simp [mapSet, hk, h]
    · simp [mapGet, hk] at h
      simp [mapSet, hk, ih h]

theorem setAdd_of_mem {l : List Nat} {x : Nat} (h : x ∈ l) : setAdd l x = l := by
  simp [setAdd, h]

theorem mem_setAdd_self (l : List Nat) (x : Nat) : x ∈ setAdd l x := by
  by_cases h : x ∈ l <;> simp [setAdd, h]

theorem mem_setAdd_of_mem {l : List Nat} {r : Nat} (x : Nat) (h : r ∈ l) :
    r ∈ setAdd l x := by
  unfold setAdd
  split <;> simp [h]

theorem setAdd_idem (l : List Nat) (x : Nat) :
    setAdd (setAdd l x) x = setAdd l x :=
  setAdd_of_mem (mem_setAdd_self l x)

/-! ### Hook installer lemmas -/

theorem execCommit_eq (impl : CommitImpl) :
    ∀ (m : List (Nat × List Nat)) (id root : Nat),
      execCommit impl m id root
        = mapSet m id (setAdd ((mapGet m id).getD []) root) := by
  induction impl with
  | fresh => intro m id root; rfl
  | wrap inner ih =>
    intro m id root
    show execCommit inner (mapSet m id (setAdd ((mapGet m id).getD []) root)) id root = _
    rw [ih, mapGet_mapSet_self]
    simp only [Option.getD_some]
    rw [setAdd_idem]
    exact mapSet_unchanged _ _ _ (mapGet_mapSet_self _ _ _)

theorem execInject_registers (impl : InjectImpl) :
    ∀ (renderers : List (Nat × Nat)) (renderer : Nat),
      mapGet (execInject impl renderers renderer).2.2
        (execInject impl renderers renderer).1 = some renderer := by
  induction impl with
  | fresh nextId => intro renderers renderer; exact mapGet_mapSet_self _ _ _
  | wrap u inner ih => intro renderers renderer; exact mapGet_mapSet_self _ _ _

theorem runOps_append (xs : List HookOp) :
    ∀ (rt : HookRuntime) (ys : List HookOp),
      runOps rt (xs ++ ys) = runOps (runOps rt xs) ys := by
  induction xs with
  | nil => intro rt ys; rfl
  | cons op rest ih => intro rt ys; simp [runOps, ih]

theorem install_preserves_renderers (rt : HookRuntime) (p : Nat × Nat)
    (h : p ∈ renderersOf rt) : p ∈ renderersOf (stepOp rt .install) := by
  cases rt with
  | none => simp [renderersOf] at h
  | some hs => simpa [stepOp, installHook, renderersOf] using h

/-! ### C1 -/

/-- C1: hook installation is idempotent with respect to registrations.
After any event sequence starting with an install, running the bootstrap
again preserves every `(id, renderer)` entry of the registration map.
This holds because the bootstrap reuses the existing `renderers` map and
`_fiberRoots` map of a present hook, and wraps (chains to) the existing
`inject` and `onCommitFiberRoot` closures instead of replacing them; a
registration through the wrapped chain still records its `(id, renderer)`
pair in the shared map. -/
theorem c1_install_idempotent :
    (∀ (ops : List HookOp) (p : Nat × Nat),
        p ∈ renderersOf (runOps none (HookOp.install :: ops)) →
        p ∈ renderersOf (runOps none ((HookOp.install :: ops) ++ [HookOp.install]))) ∧
    (∀ (rt : HookRuntime) (p : Nat × Nat),
        p ∈ renderersOf rt → p ∈ renderersOf (stepOp rt .install)) ∧
    (∀ h : HookState, renderersOf (installHook (some h)) = h.renderers ∧
        (installHook (some h)).map HookState.fiberRoots = some h.fiberRoots) ∧
    (∀ h : HookState, ∃ k, installHook (some h) =
        some ⟨h.renderers, h.fiberRoots, .wrap k h.injectF, .wrap h.commitF⟩) ∧
    (∀ (impl : InjectImpl) (renderers : List (Nat × Nat)) (renderer : Nat),
        mapGet (execInject impl renderers renderer).2.2
          (execInject impl renderers renderer).1 = some renderer) := by
  refine ⟨?_, install_preserves_renderers, ?_, ?_, ?_⟩
  · intro ops p hp
    rw [runOps_append]
    exact install_preserves_renderers _ p hp
  · intro h
    exact ⟨rfl, rfl⟩
  · intro h
    exact ⟨h.renderers.length + 1, rfl⟩
  · exact execInject_registers

/-- Witness for C1: renderer 7 is registered as id 1 between two installs
and survives the second install. -/
theorem c1_witness :
    ((1, 7) : Nat × Nat) ∈
      renderersOf (runOps none ((HookOp.install :: [HookOp.inject 7]) ++ [HookOp.install])) :=
  c1_install_idempotent.1 [HookOp.inject 7] (1, 7) (by decide)

/-! ### C6 -/

/-- C6 counterexample: the hook does not supersede the recorded roots on a
commit.  After installing and receiving commits for root 10 and then root
20 under registration 1, the engine reads the accumulated set `[10, 20]`,
not the most recently observed `[20]`. -/
theorem c6_counterexample :
    rootsOf (runOps none [HookOp.install, .commit 1 10, .commit 1 20]) 1 = [10, 20] ∧
    rootsOf (runOps none [HookOp.install, .commit 1 10, .commit 1 20]) 1 ≠ [20] :=
  ⟨rfl, by decide⟩

/-- C6 amended: each commit notification adds its root to the
per-registration root set (appending it when absent); previously observed
roots are never removed, so the engine reads the union of all observed
roots rather than only the most recent ones.  The chained commit closures
collapse to a single add because the add is idempotent on the shared
map. -/
theorem c6_roots_accumulate :
    (∀ (impl : CommitImpl) (m : List (Nat × List Nat)) (id root : Nat),
        execCommit impl m id root
          = mapSet m id (setAdd ((mapGet m id).getD []) root)) ∧
    (∀ (h : HookState) (id root : Nat),
        rootsOf (stepOp (some h) (.commit id root)) id
          = setAdd (rootsOf (some h) id) root) ∧
    (∀ (h : HookState) (id root r : Nat),
        r ∈ rootsOf (some h) id →
        r ∈ rootsOf (stepOp (some h) (.commit id root)) id) ∧
    (∀ (h : HookState) (id root : Nat),
        root ∈ rootsOf (stepOp (some h) (.commit id root)) id) := by
  have hstep : ∀ (h : HookState) (id root : Nat),
      rootsOf (stepOp (some h) (.commit id root)) id
        = setAdd (rootsOf (some h) id) root := by
    intro h id root
    show (mapGet (execCommit h.commitF h.fiberRoots id root) id).getD [] = _
    rw [execCommit_eq, mapGet_mapSet_self]
    rfl
  refine ⟨execCommit_eq, hstep, ?_, ?_⟩
  · intro h id root r hr
    rw [hstep]
    exact mem_setAdd_of_mem root hr
  · intro h id root
    rw [hstep]
    exact mem_setAdd_self _ _

/-- Witness for C6: in the demo hook state, root 10 (recorded earlier for
registration 1) is still read after a commit of root 20. -/
theorem c6_witness :
    10 ∈ rootsOf (stepOp (some hDemo) (.commit 1 20)) 1 :=
  c6_roots_accumulate.2.2.1 hDemo 1 20 10 (by decide)

/-! ### Serializer lemmas -/

theorem serVal_circular_of_mem (heap : Nat → HObj) (arrLim entLim maxDepth : Nat)
    (seen : List Nat) (r : Nat) (hr : r ∈ seen) :
    serVal heap arrLim entLim maxDepth seen (.vref r) = (.sstr "[Circular]", seen) := by
  simp [serVal, hr]

theorem serVal_depth_zero (heap : Nat → HObj) (arrLim entLim : Nat)
    (seen : List Nat) (r : Nat) (hr : ¬ r ∈ seen) :
    serVal heap arrLim entLim 0 seen (.vref r) = (.sstr "[Max Depth]", seen ++ [r]) := by
  simp [serVal, hr]

theorem serSeq_seen_mono (f : List Nat → JVal → SVal × List Nat)
    (hf : ∀ (seen : List Nat) (v : JVal) (x : Nat), x ∈ seen → x ∈ (f seen v).2) :
    ∀ (items : List JVal) (seen : List Nat) (x : Nat),
      x ∈ seen → x ∈ (serSeq f seen items).2 := by
  intro items
  induction items with
  | nil => intro seen x hx; simpa [serSeq] using hx
  | cons v rest ih =>
    intro seen x hx
    simpa [serSeq] using ih _ _ (hf _ _ _ hx)

theorem serSeqFields_seen_mono (f : List Nat → JVal → SVal × List Nat)
    (hf : ∀ (seen : List Nat) (v : JVal) (x : Nat), x ∈ seen → x ∈ (f seen v).2) :
    ∀ (fields : List (String × JVal)) (seen : List Nat) (x : Nat),
      x ∈ seen → x ∈ (serSeqFields f seen fields).2 := by
  intro fields
  induction fields with
  | nil => intro seen x hx; simpa [serSeqFields] using hx
  | cons kv rest ih =>
    intro seen x hx
    obtain ⟨k, v⟩ := kv
    by_cases hk : k.startsWith "__react" = true
    · simpa [serSeqFields, hk] using ih _ _ hx
    · simpa [serSeqFields, hk] using ih _ _ (hf _ _ _ hx)

theorem serVal_seen_mono :
    ∀ (maxDepth : Nat) (heap : Nat → HObj) (arrLim entLim : Nat)
      (seen : List Nat) (v : JVal) (x : Nat),
      x ∈ seen → x ∈ (serVal heap arrLim entLim maxDepth seen v).2 := by
  intro maxDepth
  induction maxDepth with
  | zero =>
    intro heap aL eL seen v x hx
    cases v with
    | vref r =>
      by_cases hc : r ∈ seen
      · simpa [serVal, hc] using hx
      · simpa [serVal, hc] using List.mem_append_left [r] hx
    | vundefined => simpa [serVal] using hx
    | vnull => simpa [serVal] using hx
    | vbool b => simpa [serVal] using hx
    | vnum n => simpa [serVal] using hx
    | vstr s => simpa [serVal] using hx
    | vfunc name => simpa [serVal] using hx
  | succ d ih =>
    intro heap aL eL seen v x hx
    cases v with
    | vref r =>
      by_cases hc : r ∈ seen
      · simpa [serVal, hc] using hx
      · have hx1 : x ∈ seen ++ [r] := List.mem_append_left [r] hx
        cases hh : heap r with
        | harr items =>
          simpa [serVal, hc, hh] using
            serSeq_seen_mono _ (fun s w y hy => ih heap aL eL s w y hy) _ _ _ hx1
        | hobj dom fields =>
          by_cases ht : jsTruthy (jsGetField fields "$$typeof") = true
          · simpa [serVal, hc, hh, ht] using hx1
          · cases dom with
            | true => simpa [serVal, hc, hh, ht] using hx1
            | false =>
              simpa [serVal, hc, hh, ht] using
                serSeqFields_seen_mono _ (fun s w y hy => ih heap aL eL s w y hy) _ _ _ hx1
    | vundefined => simpa [serVal] using hx
    | vnull => simpa [serVal] using hx
    | vbool b => simpa [serVal] using hx
    | vnum n => simpa [serVal] using hx
    | vstr s => simpa [serVal] using hx
    | vfunc name => simpa [serVal] using hx

/-! ### C3 -/

/-- C3: per visited object the circular check precedes the depth check,
which precedes type dispatch.  An already-visited reference serializes to
`[Circular]` at every depth — in particular at depth 0, where the depth
marker would otherwise fire, and regardless of what the heap holds at the
reference (no type dispatch happens) — and the specification's cyclic
input `a.self = a` serializes at depth 3 to `\x7bself: "[Circular]"\x7d`
(totality of `serVal` standing in for "never throws"). -/
theorem c3_circular_precedes_depth :
    (∀ (heap : Nat → HObj) (arrLim entLim maxDepth : Nat) (seen : List Nat) (r : Nat),
        r ∈ seen →
        serVal heap arrLim entLim maxDepth seen (.vref r) = (.sstr "[Circular]", seen)) ∧
    safeSerialize heapSelf (.vref 0) 3 = (.sobj [("self", .sstr "[Circular]")], [0]) :=
  ⟨serVal_circular_of_mem, rfl⟩

/-- Witness for C3: a reference already in the `seen` set serializes to
`[Circular]` exactly at the depth limit. -/
theorem c3_witness :
    serVal heapEmpty 100 50 0 [5] (.vref 5) = (.sstr "[Circular]", [5]) :=
  c3_circular_precedes_depth.1 heapEmpty 100 50 0 [5] 5 (by decide)

/-! ### C7 -/

/-- C7 (code bug): a function value is returned unchanged by the
serializer — the early `typeof obj !== 'object'` return fires for
functions, so the later `[Function: <name>]` branch is dead code and the
documented marker is never produced. -/
theorem c7_function_passthrough :
    (∀ (heap : Nat → HObj) (arrLim entLim maxDepth : Nat) (seen : List Nat) (name : String),
        serVal heap arrLim entLim maxDepth seen (.vfunc name) = (.sfunc name, seen)) ∧
    (safeSerialize heapEmpty (.vfunc "handleClick") 3).1 ≠ .sstr "[Function: handleClick]" := by
  constructor
  · intro heap aL eL d seen name
    cases d <;> rfl
  · intro h
    exact SVal.noConfusion h

/-! ### C9 -/

/-- C9: the serializer conflates sharing with cycles.  Every object is
recorded in the `seen` set when first reached (before the depth check) and
never removed within one call, so any later occurrence of the same
reference — be the graph cyclic or a mere DAG — serializes to
`[Circular]`; an object first reached exactly at the depth limit yields
`[Max Depth]` there (while still being recorded) and `[Circular]` at every
later occurrence.  The two closing equations evaluate the diamond heap
(object 0 referencing object 1 twice, acyclically). -/
theorem c9_sharing_conflated_with_cycles :
    (∀ (heap : Nat → HObj) (arrLim entLim maxDepth : Nat) (seen : List Nat) (r : Nat),
        r ∈ seen →
        serVal heap arrLim entLim maxDepth seen (.vref r) = (.sstr "[Circular]", seen)) ∧
    (∀ (heap : Nat → HObj) (arrLim entLim : Nat) (seen : List Nat) (r : Nat),
        ¬ r ∈ seen →
        serVal heap arrLim entLim 0 seen (.vref r) = (.sstr "[Max Depth]", seen ++ [r])) ∧
    (∀ (maxDepth : Nat) (heap : Nat → HObj) (arrLim entLim : Nat)
        (seen : List Nat) (v : JVal) (x : Nat),
        x ∈ seen → x ∈ (serVal heap arrLim entLim maxDepth seen v).2) ∧
    safeSerialize heapDiamond (.vref 0) 3
      = (.sobj [("x", .sobj []), ("y", .sstr "[Circular]")], [0, 1]) ∧
    safeSerialize heapDiamond (.vref 0) 1
      = (.sobj [("x", .sstr "[Max Depth]"), ("y", .sstr "[Circular]")], [0, 1]) :=
  ⟨serVal_circular_of_mem, serVal_depth_zero, serVal_seen_mono, rfl, rfl⟩

/-- Witness for C9: the general statements applied to the diamond heap. -/
theorem c9_witness :
    serVal heapDiamond 100 50 2 [1] (.vref 1) = (.sstr "[Circular]", [1]) ∧
    serVal heapDiamond 100 50 0 [] (.vref 1) = (.sstr "[Max Depth]", [] ++ [1]) ∧
    3 ∈ (serVal heapDiamond 100 50 2 [3] (.vref 0)).2 :=
  ⟨c9_sharing_conflated_with_cycles.1 heapDiamond 100 50 2 [1] 1 (by decide),
   c9_sharing_conflated_with_cycles.2.1 heapDiamond 100 50 [] 1 (by decide),
   c9_sharing_conflated_with_cycles.2.2.1 2 heapDiamond 100 50 [3] (.vref 0) 3 (by decide)⟩

/-! ### Snapshot lemmas

The UID bookkeeping of `processNode`: the pre-order UID list of the
returned subtree is exactly `uidOf` applied to the consecutive counter
values consumed by the call. -/

/-- Specification of a node-processing function with respect to UID
assignment from snapshot token `s`. -/
def NodeSpec (s : String) (f : AXNode → Nat → Option SnapNode × Nat) : Prop :=
  ∀ (node : AXNode) (c : Nat),
    c ≤ (f node c).2 ∧
    uidsOfOpt (f node c).1
      = (List.range' c ((f node c).2 - c)).map (uidOf s)

theorem uidsOfOpt_filterMap_cons (o : Option SnapNode) (l : List (Option SnapNode)) :
    preorderUidsList ((o :: l).filterMap id)
      = uidsOfOpt o ++ preorderUidsList (l.filterMap id) := by
  cases o <;> simp [uidsOfOpt, preorderUidsList]

theorem processChildIds_uids (nm : Nat → Option AXNode)
    (f : AXNode → Nat → Option SnapNode × Nat) (s : String) (hf : NodeSpec s f) :
    ∀ (ids : List Nat) (c : Nat),
      c ≤ (processChildIds nm f ids c).2 ∧
      preorderUidsList ((processChildIds nm f ids c).1.filterMap id)
        = (List.range' c ((processChildIds nm f ids c).2 - c)).map (uidOf s) := by
  intro ids
  induction ids with
  | nil => intro c; simp [processChildIds, preorderUidsList]
  | cons cid rest ih =>
    intro c
    cases hn : nm cid with
    | none =>
      have h2 := ih c
      constructor
      · simpa [processChildIds, hn] using h2.1
      · have hsplit := uidsOfOpt_filterMap_cons none ((processChildIds nm f rest c).1)
        simp only [processChildIds, hn]
        simpa [uidsOfOpt] using h2.2
    | some child =>
      have h1 := hf child c
      have h2 := ih (f child c).2
      have hc1 : c ≤ (f child c).2 := h1.1
      have hc2 : (f child c).2 ≤ (processChildIds nm f rest (f child c).2).2 := h2.1
      constructor
      · simpa [processChildIds, hn] using le_trans hc1 hc2
      · simp only [processChildIds, hn]
        rw [uidsOfOpt_filterMap_cons, h1.2, h2.2]
        rw [← List.map_append]
        congr 1
        have := List.range'_append c ((f child c).2 - c)
          ((processChildIds nm f rest (f child c).2).2 - (f child c).2) 1
        simp only [one_mul, Nat.mul_one] at this
        rw [show c + ((f child c).2 - c) = (f child c).2 by omega] at this
        rw [this]
        congr 1
        omega

theorem processNode_uids (nm : Nat → Option AXNode) (cm : Nat → List Nat)
    (v : Bool) (s : String) :
    ∀ fuel : Nat, NodeSpec s (processNode nm cm v s fuel) := by
  intro fuel
  induction fuel with
  | zero => intro node c; simp [processNode, uidsOfOpt]
  | succ f ih =>
    intro node c
    by_cases hig : (!v && node.ignored) = true
    · simp [processNode, hig, uidsOfOpt]
    · have hspec := processChildIds_uids nm _ s ih (cm node.nodeId) (c + 1)
      by_cases hlen : (cm node.nodeId).length > 0
      · by_cases hch :
          ((processChildIds nm (processNode nm cm v s f) (cm node.nodeId) (c + 1)).1.filterMap
            id).length > 0
        · constructor
          · have h1 := hspec.1
            simp only [processNode, hig, hlen, hch, Bool.false_eq_true, if_false,
              if_true, if_pos, gt_iff_lt]
            omega
          · simp only [processNode, hig, Bool.false_eq_true, if_false, if_pos hlen, if_pos hch]
            simp only [uidsOfOpt, preorderUids]
            rw [hspec.2]
            have hk : (processChildIds nm (processNode nm cm v s f) (cm node.nodeId)
                (c + 1)).2 - c
              = ((processChildIds nm (processNode nm cm v s f) (cm node.nodeId)
                  (c + 1)).2 - (c + 1)) + 1 := by
              have := hspec.1
              omega
            rw [hk, List.range'_succ]
            simp [List.map_cons]
        · constructor
          · simp only [processNode, hig, Bool.false_eq_true, if_false, if_pos hlen, if_neg hch]
            omega
          · simp only [processNode, hig, Bool.false_eq_true, if_false, if_pos hlen, if_neg hch]
            simp only [uidsOfOpt, preorderUids]
            have hemp : preorderUidsList
                ((processChildIds nm (processNode nm cm v s f) (cm node.nodeId)
                  (c + 1)).1.filterMap id) = [] := by
              have h0 : ((processChildIds nm (processNode nm cm v s f) (cm node.nodeId)
                  (c + 1)).1.filterMap id) = [] := by
                cases hfm : ((processChildIds nm (processNode nm cm v s f) (cm node.nodeId)
                    (c + 1)).1.filterMap id) with
                | nil => rfl
                | cons a l => rw [hfm] at hch; simp at hch
              rw [h0]; rfl
            have hcnt : (processChildIds nm (processNode nm cm v s f) (cm node.nodeId)
                (c + 1)).2 = c + 1 := by
              have hmap := hspec.2
              rw [hemp] at hmap
              have := List.map_eq_nil_iff.mp hmap.symm
              have := List.range'_eq_nil.mp this
              omega
            rw [hcnt]
            simp [List.range'_succ, uidOf]
      · constructor
        · simp only [processNode, hig, Bool.false_eq_true, if_false, if_neg hlen]
          omega
        · simp only [processNode, hig, Bool.false_eq_true, if_false, if_neg hlen]
          simp [uidsOfOpt, preorderUids, List.range'_succ]

/-! ### C5 -/

/-- C5: within one snapshot, `processNode` assigns UIDs of the form
`${snapshotId}_${sequence}` with the sequence numbers following the
depth-first pre-order traversal exactly: the pre-order UID listing of the
materialized root is `uidOf snapshotId` mapped over the consecutive
counters `0, 1, …, k-1`, so each node's UID precedes all of its children's
and all UIDs are pairwise distinct (injectivity of the decimal
rendering). -/
theorem c5_uid_preorder_distinct :
    ∀ (nodes : List AXNode) (verbose : Bool) (sid : String) (fuel : Nat)
      (snap : Snapshot) (root : SnapNode),
      takeSnapshotModel nodes verbose sid fuel = some snap →
      snap.root = some root →
      (∃ k, preorderUids root = (List.range' 0 k).map (uidOf sid)) ∧
      (preorderUids root).Nodup := by
  intro nodes verbose sid fuel snap root hsnap hroot
  cases nodes with
  | nil => simp [takeSnapshotModel] at hsnap
  | cons rootNode rest =>
    simp only [takeSnapshotModel, List.head?, Option.some.injEq] at hsnap
    have hspec := processNode_uids
      (fun k => mapGet (buildNodeMap (rootNode :: rest)) k)
      (fun k => (mapGet (buildChildrenMap (rootNode :: rest)) k).getD [])
      verbose sid fuel rootNode 0
    rw [← hsnap] at hroot
    simp only at hroot
    have huids := hspec.2
    rw [hroot] at huids
    simp only [uidsOfOpt, Nat.sub_zero] at huids
    constructor
    · exact ⟨_, huids⟩
    · rw [huids]
      exact List.Nodup.map (fun a b hab => uidOf_inj sid hab) (List.nodup_range' _ _)

/-- Witness for C5: the demo snapshot's root carries UIDs `99_0`, `99_1`,
`99_2` in pre-order, pairwise distinct. -/
theorem c5_witness :
    (∃ k, preorderUids demoRoot = (List.range' 0 k).map (uidOf "99")) ∧
    (preorderUids demoRoot).Nodup :=
  c5_uid_preorder_distinct demoNodes false "99" 5 ⟨some demoRoot, "99"⟩ demoRoot rfl rfl

/-! ### C10 lemmas -/

theorem noEmptyChildrenList_of_forall :
    ∀ (cs : List SnapNode), (∀ t ∈ cs, noEmptyChildren t = true) →
      noEmptyChildrenList cs = true := by
  intro cs
  induction cs with
  | nil => intro _; rfl
  | cons n rest ih =>
    intro h
    simp only [noEmptyChildrenList, Bool.and_eq_true]
    exact ⟨h n (by simp), ih (fun t ht => h t (by simp [ht]))⟩

theorem mem_of_mem_filterMap_id {l : List (Option SnapNode)} {t : SnapNode}
    (h : t ∈ l.filterMap id) : some t ∈ l := by
  rcases List.mem_filterMap.mp h with ⟨a, ha, hid⟩
  cases a with
  | none => simp at hid
  | some b => simp at hid; rwa [hid] at ha

theorem processChildIds_noEmpty (nm : Nat → Option AXNode)
    (f : AXNode → Nat → Option SnapNode × Nat)
    (hf : ∀ (node : AXNode) (c : Nat) (t : SnapNode),
      (f node c).1 = some t → noEmptyChildren t = true) :
    ∀ (ids : List Nat) (c : Nat) (t : SnapNode),
      some t ∈ (processChildIds nm f ids c).1 → noEmptyChildren t = true := by
  intro ids
  induction ids with
  | nil => intro c t h; simp [processChildIds] at h
  | cons cid rest ih =>
    intro c t h
    cases hn : nm cid with
    | none =>
      simp only [processChildIds, hn, List.mem_cons] at h
      rcases h with h | h
      · exact absurd h.symm (by simp)
      · exact ih _ _ h
    | some child =>
      simp only [processChildIds, hn, List.mem_cons] at h
      rcases h with h | h
      · exact hf child c t h.symm
      · exact ih _ _ h

theorem processNode_noEmpty (nm : Nat → Option AXNode) (cm : Nat → List Nat)
    (v : Bool) (s : String) :
    ∀ (fuel : Nat) (node : AXNode) (c : Nat) (t : SnapNode),
      (processNode nm cm v s fuel node c).1 = some t →
      noEmptyChildren t = true := by
  intro fuel
  induction fuel with
  | zero => intro node c t h; simp [processNode] at h
  | succ f ih =>
    intro node c t h
    by_cases hig : (!v && node.ignored) = true
    · simp [processNode, hig] at h
    · by_cases hlen : (cm node.nodeId).length > 0
      · by_cases hch :
          ((processChildIds nm (processNode nm cm v s f) (cm node.nodeId) (c + 1)).1.filterMap
            id).length > 0
        · simp only [processNode, hig, Bool.false_eq_true, if_false, if_pos hlen,
            if_pos hch, Option.some.injEq] at h
          rw [← h]
          simp only [noEmptyChildren, Bool.and_eq_true]
          constructor
          · cases hfm : ((processChildIds nm (processNode nm cm v s f) (cm node.nodeId)
                (c + 1)).1.filterMap id) with
            | nil => rw [hfm] at hch; simp at hch
            | cons a l => simp [hfm]
          · exact noEmptyChildrenList_of_forall _
              (fun u hu => processChildIds_noEmpty nm _ ih _ _ u (mem_of_mem_filterMap_id hu))
        · simp only [processNode, hig, Bool.false_eq_true, if_false, if_pos hlen,
            if_neg hch, Option.some.injEq] at h
          rw [← h]
          rfl
      · simp only [processNode, hig, Bool.false_eq_true, if_false, if_neg hlen,
          Option.some.injEq] at h
        rw [← h]
        rfl

/-! ### C10 -/

/-- C10: with `verbose = false`, an ignored node is pruned before its UID
is assigned and before any of its children are visited — the call returns
`null` with the counter unchanged, so neither the node nor any descendant
appears and no UID counter value is consumed for any of them — and a
materialized parent whose children were all pruned carries no `children`
field at all (never an empty list), at every level of the result. -/
theorem c10_ignored_pruned_no_empty_children :
    (∀ (nm : Nat → Option AXNode) (cm : Nat → List Nat) (s : String)
        (fuel : Nat) (node : AXNode) (c : Nat),
        node.ignored = true →
        processNode nm cm false s fuel node c = (none, c)) ∧
    (∀ (nm : Nat → Option AXNode) (cm : Nat → List Nat) (v : Bool) (s : String)
        (fuel : Nat) (node : AXNode) (c : Nat) (t : SnapNode),
        (processNode nm cm v s fuel node c).1 = some t →
        noEmptyChildren t = true) := by
  constructor
  · intro nm cm s fuel node c hig
    cases fuel with
    | zero => rfl
    | succ f => simp [processNode, hig]
  · intro nm cm v s fuel node c t h
    exact processNode_noEmpty nm cm v s fuel node c t h

/-- Witness for C10: the ignored demo node is pruned without consuming the
counter, and the demo snapshot root satisfies the no-empty-children
invariant. -/
theorem c10_witness :
    processNode (fun _ => none) (fun _ => []) false "99" 3 ignoredNode 7 = (none, 7) ∧
    noEmptyChildren demoRoot = true :=
  ⟨c10_ignored_pruned_no_empty_children.1 (fun _ => none) (fun _ => []) "99" 3 ignoredNode 7 rfl,
   c10_ignored_pruned_no_empty_children.2
     (fun k => mapGet (buildNodeMap demoNodes) k)
     (fun k => (mapGet (buildChildrenMap demoNodes) k).getD [])
     false "99" 5 demoRootAX 0 demoRoot rfl⟩

/-! ### C2 -/

/-- C2 (code bug): `getComponentMap` never attaches accessibility role or
name to any line.  On a page whose accessibility index does contain the
host button (`backendDOMNodeId 42`, role `button`, name `Log in`), the
emitted map is exactly the header plus the single authored line `App` —
no host line exists and no role/name annotation appears anywhere, because
the `axNodeMap` built from the snapshot is never consulted by the fiber
walk.  The closing conjunct states this in general: the emitted output is
entirely independent of the accessibility snapshot contents. -/
theorem c2_role_name_never_attached :
    getComponentMapModel buttonAxNodes false false "1000" 5 true heapEmpty [rootFiber]
      = some "React Component Tree:\n\nApp" ∧
    ((takeSnapshotModel buttonAxNodes false "1000" 5).map
      (fun snap => snap.root.map (fun root => mapGet (buildAxMap root []) 42)))
      = some (some (some ⟨some "button", some "Log in"⟩)) ∧
    (∀ (a1 a2 : AXNode) (r1 r2 : List AXNode) (v1 v2 inc : Bool) (s1 s2 : String)
        (f1 f2 : Nat) (hook : Bool) (heap : Nat → HObj) (roots : List Fiber),
        getComponentMapModel (a1 :: r1) v1 inc s1 f1 hook heap roots
          = getComponentMapModel (a2 :: r2) v2 inc s2 f2 hook heap roots) := by
  refine ⟨rfl, rfl, ?_⟩
  intro a1 a2 r1 r2 v1 v2 inc s1 s2 f1 f2 hook heap roots
  simp [getComponentMapModel, takeSnapshotModel]

/-! ### C4 -/

/-- C4 (code bug): on a parent chain of 21 host fibers (no authored node),
the walk performs exactly 20 parent traversals — the loop stops at the
fiber 20 steps up, `(hostChain.drop 20).head?` — but the tool then does
not report "not found": since that fiber is non-null, the code falls
through to the success path and fabricates a component named `Unknown` of
type `UnknownTag(5)` from the non-authored fiber. -/
theorem c4_budget_exhaustion_fabricates_component :
    getReactComponentOutcome hostChain = .found "Unknown" "UnknownTag(5)" ∧
    getReactComponentOutcome hostChain
      ≠ .failure "No React component found in fiber tree" ∧
    fiberWalkUp hostChain 20 = (hostChain.drop 20).head? := by
  refine ⟨rfl, ?_, rfl⟩
  intro h
  exact ComponentLookup.noConfusion h

/-! ### C8 -/

/-- C8 counterexample: the root-listing operation does not return a
structured result when the in-page evaluation reports an error — it throws
(`throw new Error(error)`), modelled as the `error` outcome, and no
success payload exists at that input. -/
theorem c8_counterexample :
    listRootsModel (.ok ()) ⟨[], some "boom"⟩ = .error "boom" ∧
    ¬ ∃ rs, listRootsModel (.ok ()) ⟨[], some "boom"⟩ = .ok rs := by
  refine ⟨rfl, ?_⟩
  rintro ⟨rs, h⟩
  exact Except.noConfusion h

/-- C8 amended: `attach` returns a structured payload on both paths
(`attached: false` with the message on injection failure), but `listRoots`
propagates exceptions: an uncaught injection failure, and a rethrown
in-page evaluation error; only an error-free evaluation returns its
results. -/
theorem c8_attach_structured_listroots_throws :
    (∀ (msg : String) (renderers : List RendererInfo),
        attachModel (.error msg) renderers = ⟨false, [], some msg⟩) ∧
    (∀ renderers : List RendererInfo,
        attachModel (.ok ()) renderers = ⟨true, renderers, none⟩) ∧
    (∀ (msg : String) (ev : ListRootsEval),
        listRootsModel (.error msg) ev = .error msg) ∧
    (∀ (results : List ReactRootInfo) (msg : String),
        listRootsModel (.ok ()) ⟨results, some msg⟩ = .error msg) ∧
    (∀ results : List ReactRootInfo,
        listRootsModel (.ok ()) ⟨results, none⟩ = .ok results) :=
  ⟨fun _ _ => rfl, fun _ => rfl, fun _ _ => rfl, fun _ _ => rfl, fun _ => rfl⟩

end ReactMCP
